import Mathlib

/-!
Verification development for the PICALO PIC-identification engine.

The Python sources are shallowly embedded: real-valued numpy arrays become
lists of rationals, NaN cells become `none` in `Option` cells, stateful
loops become fuel-indexed recursions, and the external SciPy special
function `betainc` becomes an explicit function parameter.  Fidelity notes
reference the files and line numbers of the repository.
-/

namespace Picalo

/-! ## Linear-algebra kernel constants and scalar helpers (src/statistics.py) -/

/-- The clamp constant hard-coded in src/statistics.py line 193:
2.2250738585072014e-308, written as an exact rational. -/
def DBL_MIN : ℚ := 22250738585072014 / 10 ^ 324

/-- Embedding of calc_p_value (src/statistics.py lines 177 to 194).  The
SciPy special function betainc (regularised incomplete beta) is external to
the repository, so it is passed as an explicit parameter; the code calls it
as betainc(dfd / 2, dfn / 2, 1 - ((dfn * f) / ((dfn * f) + dfd))).  The
first branch returns 1 when rss2 >= rss1; a result that equals 0 exactly is
replaced by the clamp constant 2.2250738585072014e-308. -/
def calc_p_value (betainc : ℚ → ℚ → ℚ → ℚ) (rss1 rss2 df1 df2 n : ℚ) : ℚ :=
  if rss1 ≤ rss2 then 1
  else
    let dfn := df2 - df1
    let dfd := n - df2
    let f_value := ((rss1 - rss2) / dfn) / (rss2 / dfd)
    let p_value := betainc (dfd / 2) (dfn / 2)
      (1 - ((dfn * f_value) / ((dfn * f_value) + dfd)))
    if p_value = 0 then DBL_MIN else p_value

/-- The exact regularised incomplete beta function at parameters a = 2 and
b = 1: I_x(2, 1) = x ^ 2.  This is the value SciPy approximates when
calc_p_value is invoked with df2 - df1 = 2 and n - df2 = 4. -/
def betainc_two_one (_a _b x : ℚ) : ℚ := x ^ 2

/-- Array cells of a numpy float matrix: `none` models NaN. -/
abbrev Cell := Option ℚ

/-- The in-place masking a[a == 0] = np.nan performed by calc_vertex_xpos
(src/statistics.py line 198) on the array given by the caller. -/
def maskZerosToNaN (a : List Cell) : List Cell :=
  a.map (fun c => if c = some 0 then none else c)

/-- One cell of -b / (2 * a) with NaN propagation (numpy semantics: any
operation on NaN yields NaN).  Division by zero cannot occur on the vertex
path because zeros of a have been replaced by NaN beforehand. -/
def vertexCell : Cell → Cell → Cell
  | some av, some bv => some (-bv / (2 * av))
  | _, _ => none

/-- Elementwise -b / (2 * a) over two arrays. -/
def vertexOfCoef : List Cell → List Cell → List Cell
  | ai :: as_, bi :: bs => vertexCell ai bi :: vertexOfCoef as_ bs
  | _, _ => []

/-- Embedding of calc_vertex_xpos (src/statistics.py lines 197 to 200).
The Python function mutates its first argument in place (the boolean-mask
assignment a[a == 0] = np.nan) and then returns -b / (2 * a).  The first
component of the result models the caller-visible post-state of the array
a; the second component models the returned vertex array. -/
def calc_vertex_xpos (a b : List Cell) : List Cell × List Cell :=
  let a' := maskZerosToNaN a
  (a', vertexOfCoef a' b)

/-! ## Command-line surface (src/src/cmd_line_arguments.py) -/

/-- One add_argument call of CommandLineArguments.create_argument_parser:
flag, argparse destination name, and whether required=True was passed
(argparse defaults to not required). -/
structure ArgSpec where
  flag : String
  dest : String
  required : Bool
deriving DecidableEq, Repr

/-- The argument table of create_argument_parser (src/src/cmd_line_arguments.py
lines 33 to 216), in source order.  Only -eq, -ge, -ex and -co carry
required=True; -std is declared with required=False and default None
(lines 102 to 109). -/
def picaloArgSpecs : List ArgSpec :=
  [⟨"-eq", "eqtl", true⟩,
   ⟨"-ge", "genotype", true⟩,
   ⟨"-na", "genotype_na", false⟩,
   ⟨"-ex", "expression", true⟩,
   ⟨"-tc", "tech_covariate", false⟩,
   ⟨"-tci", "tech_covariate_with_inter", false⟩,
   ⟨"-co", "covariate", true⟩,
   ⟨"-std", "sample_to_dataset", false⟩,
   ⟨"-mds", "min_dataset_size", false⟩,
   ⟨"-cr", "call_rate", false⟩,
   ⟨"-hw", "hardy_weinberg_pvalue", false⟩,
   ⟨"-maf", "minor_allele_frequency", false⟩,
   ⟨"-mgs", "min_group_size", false⟩,
   ⟨"-iea", "ieqtl_alpha", false⟩,
   ⟨"-n_components", "n_components", false⟩,
   ⟨"-min_iter", "min_iter", false⟩,
   ⟨"-max_iter", "max_iter", false⟩,
   ⟨"-tol", "tol", false⟩,
   ⟨"-force_continue", "force_continue", false⟩,
   ⟨"-o", "outdir", false⟩,
   ⟨"-verbose", "verbose", false⟩]

/-- Argparse acceptance of an invocation: parsing succeeds exactly when
every argument declared with required=True is among the provided flags. -/
def argparseAccepts (specs : List ArgSpec) (provided : List String) : Bool :=
  specs.all (fun a => !a.required || provided.contains a.flag)

/-- CommandLineArguments.get_argument (src/src/cmd_line_arguments.py lines
225 to 231): returns the stored value when the key is a destination of the
parser and None otherwise.  Here we record only which keys exist. -/
def cliHasArgument (key : String) : Bool :=
  picaloArgSpecs.any (fun a => a.dest == key)

/-- Main.start fallback for a missing -std (src/src/main.py lines 104 to
110): when no sample-to-dataset table was given, every genotype column is
assigned the dataset tag "None". -/
def resolveStd (std : Option (List (String × String))) (genoCols : List String) :
    List (String × String) :=
  match std with
  | some s => s
  | none => genoCols.map (fun c => (c, "None"))

/-! ## Exit-code model (Python runtime semantics plus src/src/main.py) -/

/-- Exit status of a Python process terminated by exit(arg): a bare exit()
raises SystemExit(None), which the interpreter maps to status 0. -/
def pythonExitCode : Option ℤ → ℤ
  | none => 0
  | some c => c

/-- Header validation of Main.validate_data (src/src/main.py lines 598 to
626): the genotype, expression and covariate headers must equal the sample
column of the sample-to-dataset table, in order. -/
def validate_headers (samples genoCols exprCols covCols : List String) : Bool :=
  genoCols == samples && exprCols == samples && covCols == samples

/-! ## QC filter (src/src/main.py, Main.start lines 138 to 246 and the
helpers calculate_call_rate, calculate_genotype_stats, calc_hwe_pvalue) -/

/-- np.rint: round to the nearest integer, ties to the nearest even
integer. -/
def npRint (q : ℚ) : ℤ :=
  let f := ⌊q⌋
  let r := q - f
  if r < 1 / 2 then f
  else if 1 / 2 < r then f + 1
  else if f % 2 = 0 then f else f + 1

/-- The probability recurrences of calc_hwe_pvalue build arrays
probs[0 .. steps] with probs[0] = 1 and probs[i+1] = step probs[i] i; this
helper returns that array in reverse order. -/
def hweProbsRev (step : ℚ → ℕ → ℚ) : ℕ → List ℚ
  | 0 => [1]
  | n + 1 =>
    let l := hweProbsRev step n
    step l.headI n :: l

/-- probs[0 .. steps] of a calc_hwe_pvalue recurrence, in index order. -/
def hweProbs (step : ℚ → ℕ → ℚ) (steps : ℕ) : List ℚ :=
  (hweProbsRev step steps).reverse

/-- Scalar (one-row) port of Main.calc_hwe_pvalue (src/src/main.py lines
718 to 809), the exact Wigginton-Cutler-Abecasis Hardy-Weinberg test.  The
source computes all rows of the matrix at once with a shared number of
steps; for a single row the shared maximum equals the row quantity and the
threshold column offset max_left_steps - left_steps is 0.  The combined
array is np.hstack((np.flip(left_het_probs), right_het_probs[:, 1:]))
(line 787): the left block enters REVERSED, so the threshold lookup at
column floor(obs_hets / 2) reads the probability of exactly obs_hets
heterozygotes. -/
def calc_hwe_pvalue (obs_hets obs_hom1 obs_hom2 : ℕ) : ℚ :=
  let obs_homc : ℕ := max obs_hom1 obs_hom2
  let obs_homr : ℕ := min obs_hom1 obs_hom2
  let rare : ℕ := 2 * obs_homr + obs_hets
  let lgeno : ℕ := obs_hets + obs_homc + obs_homr
  let mid0 : ℤ := npRint (((rare : ℚ) * (2 * (lgeno : ℚ) - rare)) / (2 * lgeno))
  let mid : ℤ := if mid0 % 2 ≠ (rare : ℤ) % 2 then mid0 + 1 else mid0
  let curr_homr : ℚ := ((rare : ℚ) - mid) / 2
  let curr_homc : ℚ := (lgeno : ℚ) - mid - curr_homr
  let left_steps : ℕ := mid.toNat / 2
  let leftStep : ℚ → ℕ → ℚ := fun prev i =>
    if (mid : ℚ) - i * 2 ≤ 0 then 0
    else prev * ((mid : ℚ) - i * 2) * (((mid : ℚ) - i * 2) - 1) /
      (4 * (curr_homr + i + 1) * (curr_homc + i + 1))
  let right_steps : ℕ := ((rare : ℤ) - mid).toNat / 2
  let rightStep : ℚ → ℕ → ℚ := fun prev i =>
    if (rare : ℚ) ≤ i * 2 + mid then 0
    else prev * 4 * (curr_homr - i) * (curr_homc - i) /
      ((i * 2 + (mid : ℚ) + 2) * (i * 2 + (mid : ℚ) + 1))
  let het_probs :=
    (hweProbs leftStep left_steps).reverse ++ (hweProbs rightStep right_steps).drop 1
  let total := het_probs.sum
  let normalized := het_probs.map (· / total)
  let threshold := normalized.getD (obs_hets / 2) 0
  let kept := normalized.map (fun p => if threshold < p then 0 else p)
  min kept.sum 1

/-- The per-row genotype statistics of Main.calculate_genotype_stats
(src/src/main.py lines 665 to 716). -/
structure GenoStats where
  n : ℕ
  nan : ℕ
  zero : ℕ
  one : ℕ
  two : ℕ
  minGS : ℕ
  hwPval : ℚ
  allele1 : ℕ
  allele2 : ℕ
  maf : ℚ
deriving Repr

/-- Embedding of Main.calculate_genotype_stats for one genotype row, with
the default missing sentinel genotype_na = -1: the row is rounded with
np.rint, cells equal to the sentinel after rounding are missing, genotype
groups are the rounded values 0, 1 and 2, and the MAF is the smaller
allele count over the total allele count. -/
def calculate_genotype_stats (row : List ℚ) : GenoStats :=
  let rounded := row.map npRint
  let nan := rounded.count (-1)
  let n := rounded.length - nan
  let c0 := rounded.count 0
  let c1 := rounded.count 1
  let c2 := rounded.count 2
  let sgz := min c0 (min c1 c2)
  let hw := calc_hwe_pvalue c1 c0 c2
  let a1 := c0 * 2 + c1
  let a2 := c2 * 2 + c1
  ⟨n, nan, c0, c1, c2, sgz, hw, a1, a2,
   ((min a1 a2 : ℕ) : ℚ) / ((a1 + a2 : ℕ) : ℚ)⟩

/-- The combined per-row inclusion decision of Main.start (src/src/main.py
lines 160 to 199) on a genotype row that has already been call-rate
masked: the row must not be entirely missing (cr_keep_mask, computed on
the raw values), and on the computed statistics N >= 6, min GS >= mgs,
HW pval >= hw_pval and MAF > maf must all hold. -/
def qcKeepRow (hw_pval maf : ℚ) (mgs : ℕ) (row : List ℚ) : Bool :=
  let crKeep := !row.all (fun c => c == -1)
  let st := calculate_genotype_stats row
  crKeep && decide (6 ≤ st.n) && decide (mgs ≤ st.minGS) &&
    decide (hw_pval ≤ st.hwPval) && decide (maf < st.maf)

/-- Per-dataset call-rate masking of Main.calculate_call_rate
(src/src/main.py lines 645 to 663) on one genotype row: for each dataset
the call rate is the fraction of cells different from the sentinel; when
it is below the threshold every cell of that dataset is replaced by the
sentinel. -/
def callRateMaskRow (cr : ℚ) (datasetOf : ℕ → ℕ) (row : List ℚ) : List ℚ :=
  let size := fun d => ((List.range row.length).filter (fun j => datasetOf j == d)).length
  let nonNA := fun d => ((List.range row.length).filter
    (fun j => datasetOf j == d && !(row.getD j (-1) == -1))).length
  (List.range row.length).map (fun j =>
    if (nonNA (datasetOf j) : ℚ) / (size (datasetOf j) : ℚ) < cr then -1
    else row.getD j (-1))

/-- A row of the eQTL table: columns SNPName, ProbeName and the discovery
FDR. -/
structure EQTLRow where
  snp : String
  probe : String
  fdr : ℚ
deriving DecidableEq, Repr

/-- Row selection by a boolean mask, as in eqtl_df.loc[combined_keep_mask]
(src/src/main.py lines 233 to 234). -/
def applyMask {α : Type} : List α → List Bool → List α
  | x :: xs, b :: bs => if b then x :: applyMask xs bs else applyMask xs bs
  | _, _ => []

/-- The QC pipeline of Main.start applied to the eQTL list and genotype
matrix (src/src/main.py lines 138 to 234), in source order: per-dataset
call-rate masking, per-row genotype statistics and the combined keep mask;
the eQTL list and the genotype matrix are then restricted to the kept
rows.  No step of this pipeline reads the FDR column of the eQTL list. -/
def mainQC (cr hw_pval maf : ℚ) (mgs : ℕ) (datasetOf : ℕ → ℕ)
    (eqtls : List EQTLRow) (geno : List (List ℚ)) :
    List EQTLRow × List (List ℚ) :=
  let geno' := geno.map (callRateMaskRow cr datasetOf)
  let mask := geno'.map (qcKeepRow hw_pval maf mgs)
  (applyMask eqtls mask, applyMask geno' mask)

/-- The eQTL discovery-FDR filter that exists only in the separate tool
fast_interaction_mapper.py (lines 114 to 119): rows with FDR < alpha are
kept.  Its threshold self.eqtl_alpha is read from the CLI key eqtl_alpha;
when that key does not exist, get_argument returns None and the pandas
comparison of a float column with None raises, modelled as `none`. -/
def fim_eqtl_fdr_filter (alpha : Option ℚ) (eqtls : List EQTLRow) :
    Option (List EQTLRow) :=
  match alpha with
  | none => none
  | some a => some (eqtls.filter (fun e => decide (e.fdr < a)))

/-! ## Interaction optimiser (src/src/inter_optimizer.py,
InteractionOptimizer.process lines 44 to 419)

The per-iteration ieQTL mapping (remove_covariates_elementwise, force
normalisation and get_ieqtls) and the joint optimisation over the ieQTL
coefficient arrays are deterministic functions of the current context
vector; get_ieqtls and the IeQTL objects live in src/utilities.py and
src/objects/ieqtl.py, which are not part of the sources, so both pipelines
are abstracted as function parameters map_ and optimize.  The force
normaliser (src/force_normaliser.py, also absent) is modelled from the
spec: a per-dataset rank-to-inverse-normal transform that returns a new
vector and leaves its argument unchanged, so it is absorbed into map_ and
context_a keeps the value of iterations_m[iteration] during an
iteration. -/

/-- A context vector: one rational per sample. -/
abbrev Vec := List ℚ

/-- The observable outcome of one ieQTL mapping call: the number of
significant ieQTLs and the minimum number of ieQTLs per sample. -/
structure MapOut where
  nHits : ℕ
  minPerSample : ℕ
deriving DecidableEq, Repr

/-- The outcome a candidate covariate obtains during iteration-0
selection. -/
structure CovResult where
  hits : ℕ
  minPerSample : ℕ
deriving DecidableEq, Repr

/-- One pass of the iteration-0 covariate selection loop
(src/src/inter_optimizer.py lines 120 to 133): the running best
(cov, n_hits, min_n_hits_per_sample) is replaced exactly when the
candidate has min-per-sample at least 2 and either strictly more hits, or
equally many hits and a strictly higher min-per-sample. -/
def selectStep (idx : ℕ) (r : CovResult) (st : Option ℕ × ℕ × ℕ) :
    Option ℕ × ℕ × ℕ :=
  if 2 ≤ r.minPerSample ∧
      (st.2.1 < r.hits ∨ (r.hits = st.2.1 ∧ st.2.2 < r.minPerSample)) then
    (some idx, r.hits, r.minPerSample)
  else st

/-- The iteration-0 covariate selection fold over all candidates
(src/src/inter_optimizer.py lines 80 to 144), starting from
cov = None, n_hits = 0, min_n_hits_per_sample = 0. -/
def selectCovariateAux : ℕ → Option ℕ × ℕ × ℕ → List CovResult →
    Option ℕ × ℕ × ℕ
  | _, st, [] => st
  | idx, st, r :: rest => selectCovariateAux (idx + 1) (selectStep idx r st) rest

/-- Covariate selection over the list of per-candidate mapping results. -/
def selectCovariate (rs : List CovResult) : Option ℕ × ℕ × ℕ :=
  selectCovariateAux 0 (none, 0, 0) rs

/-- The oscillation detection block of InteractionOptimizer.process
(src/src/inter_optimizer.py lines 294 to 341).  hist models iterations_m
rows 0 .. iteration + 1 (the last entry is the freshly optimised vector);
pearsonr1 correlates rows iteration - 1 and iteration + 1, pearsonr2 rows
iteration - 2 and iteration.  Returns none when no oscillation is
declared, and otherwise whether the roll-back branch is taken:
(not p1 and p2) or (p1 and p2 and prev_included_ieqtls[0] > n_hits). -/
def oscCheck (pearson : Vec → Vec → ℚ) (tol : ℚ) (minIter iteration : ℕ)
    (hist : List Vec) (prevHits nHits : ℕ) : Option Bool :=
  if 3 ≤ iteration ∧ minIter ≤ iteration then
    let r1 := pearson (hist.getD (iteration - 1) []) (hist.getD (iteration + 1) [])
    let r2 := pearson (hist.getD (iteration - 2) []) (hist.getD iteration [])
    let p1 := decide (1 - r1 < tol)
    let p2 := decide (1 - r2 < tol)
    if p1 || p2 then some ((!p1 && p2) || (p1 && p2 && decide (nHits < prevHits)))
    else none
  else none

/-- What InteractionOptimizer.process hands back to the driver, together
with n_iterations_performed (which governs how many iteration rows are
persisted to iteration.txt.gz and info.txt.gz). -/
structure ProcResult where
  context : Option Vec
  nHits : ℕ
  stop : Bool
  nPerformed : ℕ
deriving DecidableEq, Repr

/-- The iteration loop of InteractionOptimizer.process from the top of the
for body (src/src/inter_optimizer.py lines 56 to 364), entered with the
context for this iteration, hist = iterations_m rows 0 .. iteration, and
prev_included_ieqtls count prevHits.  Fuel counts the remaining loop
passes.  Abort when n_hits <= 1 or min-per-sample <= 1: on iteration 0 the
component is discarded (context None, stop False), later the current
context is returned with stop still True.  Otherwise the optimised vector
is appended to hist; on a declared oscillation both branches break with
the current context (the roll-back branch reports prevHits and does not
count the iteration); on normal convergence, checked after the variables
are overwritten for the next round, the optimised vector is returned.
Exhausted fuel models reaching max_iter: the last optimised vector is
returned with stop = True. -/
def processIter (map_ : Vec → MapOut) (optimize : Vec → Vec)
    (pearson : Vec → Vec → ℚ) (tol : ℚ) (minIter : ℕ) :
    ℕ → ℕ → Vec → List Vec → ℕ → ℕ → ProcResult
  | 0, _, context, _, prevHits, nPerformed =>
      ⟨some context, prevHits, true, nPerformed⟩
  | fuel + 1, iteration, context, hist, prevHits, nPerformed =>
    let r := map_ context
    if r.nHits ≤ 1 then
      if iteration = 0 then ⟨none, r.nHits, false, nPerformed⟩
      else ⟨some context, r.nHits, true, nPerformed⟩
    else if r.minPerSample ≤ 1 then
      if iteration = 0 then ⟨none, r.nHits, false, nPerformed⟩
      else ⟨some context, r.nHits, true, nPerformed⟩
    else
      let c2 := optimize context
      let hist2 := hist ++ [c2]
      let pr := pearson context c2
      match oscCheck pearson tol minIter iteration hist2 prevHits r.nHits with
      | some true => ⟨some context, prevHits, false, nPerformed⟩
      | some false => ⟨some context, r.nHits, false, nPerformed + 1⟩
      | none =>
        if minIter ≤ nPerformed + 1 ∧ 1 - pr < tol then
          ⟨some c2, r.nHits, false, nPerformed + 1⟩
        else
          processIter map_ optimize pearson tol minIter fuel (iteration + 1) c2
            hist2 r.nHits (nPerformed + 1)

/-- Entry point of InteractionOptimizer.process: with a single candidate
covariate it becomes the iteration-0 context (src/src/inter_optimizer.py
lines 66 to 68); with several candidates the iteration-0 selection picks
the context, and when no candidate is valid the component is discarded
(lines 146 to 150, context None and stop False).  The selection reuses the
per-candidate mapping results, which equal map_ applied to the candidate
because the candidate pipeline (lines 85 to 107) is the very pipeline of a
normal iteration (lines 171 to 187). -/
def ioProcess (map_ : Vec → MapOut) (optimize : Vec → Vec)
    (pearson : Vec → Vec → ℚ) (tol : ℚ) (minIter maxIter : ℕ)
    (covs : List Vec) : ProcResult :=
  if maxIter = 0 then ⟨none, 0, true, 0⟩
  else
    match covs with
    | [c] => processIter map_ optimize pearson tol minIter maxIter 0 c [c] 0 0
    | _ =>
      let results := covs.map (fun c =>
        let r := map_ c; (⟨r.nHits, r.minPerSample⟩ : CovResult))
      match selectCovariate results with
      | (none, _, _) => ⟨none, 0, false, 0⟩
      | (some k, _, _) =>
        processIter map_ optimize pearson tol minIter maxIter 0 (covs.getD k [])
          [covs.getD k []] 0 0

/-! ## PIC driver (src/src/main.py, Main.start lines 350 to 584) -/

/-- Driver state across the component loop: pic_m rows so far, the
components whose component.npy was written, the summary_stats rows
(component index, iterative number of ieQTLs), the stop flag and
n_components_performed. -/
structure DriverState where
  pics : List Vec
  written : List ℕ
  summary : List (ℕ × ℕ)
  stop : Bool
  nPerformed : ℕ
deriving DecidableEq, Repr

/-- Initial driver state (src/src/main.py lines 363 to 371). -/
def driverInit : DriverState := ⟨[], [], [], false, 0⟩

/-- The component loop of Main.start (src/src/main.py lines 372 to 477)
for a fresh run (no component.npy files exist yet): at the top of each
pass the loop breaks when the previous component set the stop flag and
-force_continue is absent; otherwise InteractionOptimizer.process runs,
its number of ieQTLs is recorded in the summary, a None component breaks
out of the loop unconditionally, and a real component is written to
PIC{k+1}/component.npy and appended. -/
def driverLoop (fc : Bool) (proc : ℕ → ProcResult) :
    ℕ → ℕ → DriverState → DriverState
  | 0, _, st => st
  | fuel + 1, k, st =>
    if st.stop && !fc then st
    else
      let r := proc k
      let summary2 := st.summary ++ [(k, r.nHits)]
      match r.context with
      | none => { st with summary := summary2 }
      | some p =>
        driverLoop fc proc fuel (k + 1)
          { pics := st.pics ++ [p], written := st.written ++ [k],
            summary := summary2, stop := r.stop, nPerformed := st.nPerformed + 1 }

/-- Fresh driver run over n_components components, where proc k is the
result of the k-th InteractionOptimizer.process call. -/
def driverRun (fc : Bool) (proc : ℕ → ProcResult) (nComponents : ℕ) :
    DriverState :=
  driverLoop fc proc nComponents 0 driverInit

/-- The PICs.txt.gz table (src/src/main.py lines 479 to 505): none when
no component was performed (the run exits after writing only
SummaryStats.txt.gz); otherwise components.txt.gz minus its final row
exactly when the stop flag is set and -force_continue is absent. -/
def picsOutput (fc : Bool) (st : DriverState) : Option (List Vec) :=
  if st.nPerformed = 0 then none
  else some (if st.stop && !fc then st.pics.dropLast else st.pics)

/-- Exit code of a Main.start run: validation failure exits through a bare
exit() (src/src/main.py lines 605, 612, 619, 626, 637, 643), the
no-PICs-identified path exits through a bare exit() (line 494), and a
completed run falls off the end of start, all of which terminate the
Python process with status 0. -/
def mainRunExitCode (validationOk fc : Bool) (proc : ℕ → ProcResult)
    (n : ℕ) : ℤ :=
  if !validationOk then pythonExitCode none
  else if (driverRun fc proc n).nPerformed = 0 then pythonExitCode none
  else 0

/-! ## Claim C8: the -std argument -/

/-- Claim C8 counterexample: the claim states that -std is required like
-eq, -ge, -ex and -co and that every invocation omitting it is rejected.
In create_argument_parser the -std argument is declared with
required=False (src/src/cmd_line_arguments.py lines 102 to 109), and an
invocation providing only the four truly required flags parses
successfully. -/
theorem std_argument_not_required :
    (picaloArgSpecs.find? (fun a => a.flag == "-std")).map ArgSpec.required =
      some false ∧
    argparseAccepts picaloArgSpecs ["-eq", "-ge", "-ex", "-co"] = true := by
  constructor <;> rfl

/-- Claim C8 as amended: exactly -eq, -ge, -ex and -co are required; -std
is optional with default None, an invocation omitting it is accepted, and
Main.start then assigns every sample the dataset tag "None"
(src/src/main.py lines 104 to 110). -/
theorem required_arguments_spec :
    picaloArgSpecs.all
      (fun a => a.required == ["-eq", "-ge", "-ex", "-co"].contains a.flag) = true ∧
    argparseAccepts picaloArgSpecs ["-eq", "-ge", "-ex", "-co"] = true ∧
    resolveStd none ["s1", "s2"] = [("s1", "None"), ("s2", "None")] := by
  refine ⟨?_, ?_, ?_⟩ <;> rfl

/-! ## Claim C2: exit codes -/

/-- Claim C2 counterexample: the claim states that a run with mismatched
headers terminates with a non-zero exit code.  Main.validate_data rejects
the mismatched genotype header below, but every error path of main.py
terminates through a bare exit(), i.e. SystemExit(None), which exits the
process with status 0; the same happens on the no-PICs-identified path. -/
theorem exit_code_zero_on_failure :
    validate_headers ["S1", "S2"] ["S1", "S3"] ["S1", "S2"] ["S1", "S2"] = false ∧
    mainRunExitCode false true (fun _ => ⟨none, 0, false, 0⟩) 2 = 0 ∧
    mainRunExitCode true false (fun _ => ⟨none, 0, false, 0⟩) 2 = 0 := by
  refine ⟨?_, ?_, ?_⟩ <;> rfl

/-- Claim C2 as amended: the process exit code is 0 in every case -
success, input-validation failure and the no-PICs path alike - because all
failure paths call exit() without an argument. -/
theorem exit_code_always_zero (v fc : Bool) (proc : ℕ → ProcResult) (n : ℕ) :
    mainRunExitCode v fc proc n = 0 := by
  unfold mainRunExitCode pythonExitCode
  split <;> [rfl; split <;> rfl]

/-! ## Claim C5: range of calc_p_value -/

/-- Claim C5 counterexample: the claim states that every returned p-value
lies in [2.2251e-308, 1].  With df2 - df1 = 2 and n - df2 = 4 the exact
regularised incomplete beta is I_x(2, 1) = x ^ 2; at rss1 = 10 ^ 155 and
rss2 = 1 the code computes x = 10 ^ -155 and the beta value 10 ^ -310,
which is not 0, so the clamp at line 192 of src/src/statistics.py does not
fire and the returned value is below both the code clamp constant
2.2250738585072014e-308 and the claimed bound 2.2251e-308. -/
theorem calc_p_value_below_clamp :
    calc_p_value betainc_two_one (10 ^ 155) 1 3 5 9 < DBL_MIN ∧
    calc_p_value betainc_two_one (10 ^ 155) 1 3 5 9 < 22251 / 10 ^ 312 ∧
    0 < calc_p_value betainc_two_one (10 ^ 155) 1 3 5 9 := by
  have h : calc_p_value betainc_two_one (10 ^ 155) 1 3 5 9 = 10 ^ (-310 : ℤ) := by
    norm_num [calc_p_value, betainc_two_one, DBL_MIN]
  rw [h]
  refine ⟨?_, ?_, ?_⟩ <;> norm_num [DBL_MIN]

/-- Claim C5 as amended: calc_p_value returns a value in
[2.2250738585072014e-308, 1] provided the betainc values lie in [0, 1] and
never fall strictly between 0 and the clamp constant; only a betainc value
of exactly 0 is clamped, so a positive value below the constant (a float64
subnormal) would be returned unchanged. -/
theorem calc_p_value_range (betainc : ℚ → ℚ → ℚ → ℚ)
    (rss1 rss2 df1 df2 n : ℚ)
    (hall : ∀ a b x, 0 ≤ betainc a b x ∧ betainc a b x ≤ 1 ∧
      (betainc a b x = 0 ∨ DBL_MIN ≤ betainc a b x)) :
    DBL_MIN ≤ calc_p_value betainc rss1 rss2 df1 df2 n ∧
    calc_p_value betainc rss1 rss2 df1 df2 n ≤ 1 := by
  have hd : DBL_MIN ≤ 1 := by norm_num [DBL_MIN]
  unfold calc_p_value
  split
  · exact ⟨hd, le_refl 1⟩
  · simp only
    split
    · exact ⟨le_refl _, hd⟩
    · rename_i hne
      rcases hall ((n - df2) / 2) ((df2 - df1) / 2)
        (1 - (df2 - df1) * (((rss1 - rss2) / (df2 - df1)) / (rss2 / (n - df2))) /
          ((df2 - df1) * (((rss1 - rss2) / (df2 - df1)) / (rss2 / (n - df2))) +
            (n - df2))) with ⟨_, h1, h2⟩
      rcases h2 with h2 | h2
      · exact absurd h2 hne
      · exact ⟨h2, h1⟩

/-- Claim C5 witness: the range theorem applied to a betainc that always
returns 1/2. -/
theorem calc_p_value_range_witness :
    DBL_MIN ≤ calc_p_value (fun _ _ _ => 1 / 2) 2 1 3 4 10 ∧
    calc_p_value (fun _ _ _ => 1 / 2) 2 1 3 4 10 ≤ 1 :=
  calc_p_value_range (fun _ _ _ => 1 / 2) 2 1 3 4 10
    (fun _ _ _ => by norm_num [DBL_MIN])

/-! ## Claim C10: calc_vertex_xpos mutates its first argument -/

theorem maskZerosToNaN_getElem? (a : List Cell) (i : ℕ) :
    (maskZerosToNaN a)[i]? = (a[i]?).map (fun c => if c = some 0 then none else c) := by
  simp [maskZerosToNaN]

theorem vertexOfCoef_getElem? (a b : List Cell) (i : ℕ) (ca cb : Cell)
    (ha : a[i]? = some ca) (hb : b[i]? = some cb) :
    (vertexOfCoef a b)[i]? = some (vertexCell ca cb) := by
  induction a generalizing b i with
  | nil => simp at ha
  | cons x xs ih =>
    cases b with
    | nil => simp at hb
    | cons y ys =>
      cases i with
      | zero =>
        simp only [List.getElem?_cons_zero, Option.some.injEq] at ha hb
        subst ha hb
        have hstep : vertexOfCoef (x :: xs) (y :: ys) =
            vertexCell x y :: vertexOfCoef xs ys := rfl
        rw [hstep, List.getElem?_cons_zero]
      | succ j =>
        simp only [List.getElem?_cons_succ] at ha hb
        have hstep : vertexOfCoef (x :: xs) (y :: ys) =
            vertexCell x y :: vertexOfCoef xs ys := rfl
        rw [hstep, List.getElem?_cons_succ]
        exact ih ys j ha hb

/-- Claim C10: calc_vertex_xpos mutates its first argument in place.  The
first component of the embedded result is the caller-visible post-state of
a: it holds NaN at every position where a held 0 (and keeps every other
cell), and the returned vertex equals -b / (2 * a) elementwise over the
mutated array, in particular NaN wherever a was 0. -/
theorem calc_vertex_xpos_spec (a b : List Cell) (i : ℕ) :
    (a[i]? = some (some 0) →
      ((calc_vertex_xpos a b).1)[i]? = some none ∧
      (∀ cb : Cell, b[i]? = some cb → ((calc_vertex_xpos a b).2)[i]? = some none)) ∧
    (a[i]? = some none → ((calc_vertex_xpos a b).1)[i]? = some none) ∧
    (∀ v : ℚ, a[i]? = some (some v) → v ≠ 0 →
      ((calc_vertex_xpos a b).1)[i]? = some (some v) ∧
      (∀ w : ℚ, b[i]? = some (some w) →
        ((calc_vertex_xpos a b).2)[i]? = some (some (-w / (2 * v))))) := by
  refine ⟨?_, ?_, ?_⟩
  · intro h
    have hmask : (maskZerosToNaN a)[i]? = some none := by
      rw [maskZerosToNaN_getElem?, h]
      simp
    refine ⟨hmask, fun cb hcb => ?_⟩
    show (vertexOfCoef (maskZerosToNaN a) b)[i]? = some none
    rw [vertexOfCoef_getElem? _ _ i none cb hmask hcb]
    cases cb <;> rfl
  · intro h
    show (maskZerosToNaN a)[i]? = some none
    rw [maskZerosToNaN_getElem?, h]
    simp
  · intro v h hv
    have hmask : (maskZerosToNaN a)[i]? = some (some v) := by
      rw [maskZerosToNaN_getElem?, h]
      simp [hv]
    refine ⟨hmask, fun w hw => ?_⟩
    show (vertexOfCoef (maskZerosToNaN a) b)[i]? = some (some (-w / (2 * v)))
    rw [vertexOfCoef_getElem? _ _ i (some v) (some w) hmask hw]
    rfl

/-- Claim C10 witness: the mutation-and-vertex theorem applied to the
concrete arrays a = [0, 3] and b = [5, 6]. -/
theorem calc_vertex_xpos_spec_witness :
    ((calc_vertex_xpos ([some 0, some 3] : List Cell)
      ([some 5, some 6] : List Cell)).1)[0]? = some none ∧
    ((calc_vertex_xpos ([some 0, some 3] : List Cell)
      ([some 5, some 6] : List Cell)).2)[0]? = some none ∧
    ((calc_vertex_xpos ([some 0, some 3] : List Cell)
      ([some 5, some 6] : List Cell)).1)[1]? = some (some (3 : ℚ)) ∧
    ((calc_vertex_xpos ([some 0, some 3] : List Cell)
      ([some 5, some 6] : List Cell)).2)[1]? =
        some (some ((-6 : ℚ) / (2 * 3))) := by
  have h0 := (calc_vertex_xpos_spec ([some 0, some 3] : List Cell)
    ([some 5, some 6] : List Cell) 0).1 rfl
  have h1 := (calc_vertex_xpos_spec ([some 0, some 3] : List Cell)
    ([some 5, some 6] : List Cell) 1).2.2 3 rfl (by norm_num)
  exact ⟨h0.1, h0.2 (some 5) rfl, h1.1, h1.2 6 rfl⟩

/-! ## Claim C6: genotype-row retention -/

theorem npRint_neg_one : npRint (-1) = -1 := by
  norm_num [npRint]

theorem count_npRint_of_all_na (row : List ℚ)
    (h : row.all (fun c => c == -1) = true) :
    (row.map npRint).count (-1) = row.length := by
  induction row with
  | nil => simp
  | cons c cs ih =>
    simp only [List.all_cons, Bool.and_eq_true, beq_iff_eq] at h
    rcases h with ⟨hc, hcs⟩
    subst hc
    simp [List.count_cons, npRint_neg_one, ih hcs]

theorem stats_n_of_all_na (row : List ℚ)
    (h : row.all (fun c => c == -1) = true) :
    (calculate_genotype_stats row).n = 0 := by
  simp [calculate_genotype_stats, count_npRint_of_all_na row h]

set_option maxHeartbeats 3200000 in
/-- Claim C6: after call-rate masking a genotype row is retained by the QC
of Main.start if and only if its non-missing count N is at least 6, its
minimum genotype-group size at least 2 (default mgs), its Hardy-Weinberg
p-value at least 1e-4 (default) and its MAF above 0.01 (default); the
extra cr_keep_mask conjunct of the source is redundant because an
all-missing row has N = 0.  In particular the row with genotype groups
(2, 5, 5) - minimum group size exactly 2, exact HWE p-value 1 - is
retained, the row with groups (1, 5, 6) - minimum group size exactly 1 -
is dropped, and the row with groups (10, 2, 10) - whose exact HWE p-value
is about 8.35e-5, below 1e-4, while minimum group size 2 and MAF 1/2
pass - is dropped by the Hardy-Weinberg filter alone. -/
theorem qcKeepRow_iff :
    (∀ row : List ℚ,
      qcKeepRow (1 / 10000) (1 / 100) 2 row = true ↔
        (6 ≤ (calculate_genotype_stats row).n ∧
         2 ≤ (calculate_genotype_stats row).minGS ∧
         1 / 10000 ≤ (calculate_genotype_stats row).hwPval ∧
         1 / 100 < (calculate_genotype_stats row).maf)) ∧
    qcKeepRow (1 / 10000) (1 / 100) 2 [0, 0, 1, 1, 1, 1, 1, 2, 2, 2, 2, 2] = true ∧
    (calculate_genotype_stats [0, 0, 1, 1, 1, 1, 1, 2, 2, 2, 2, 2]).hwPval = 1 ∧
    qcKeepRow (1 / 10000) (1 / 100) 2 [0, 1, 1, 1, 1, 1, 2, 2, 2, 2, 2, 2] = false ∧
    qcKeepRow (1 / 10000) (1 / 100) 2
      [0, 0, 0, 0, 0, 0, 0, 0, 0, 0, 1, 1, 2, 2, 2, 2, 2, 2, 2, 2, 2, 2] = false ∧
    (calculate_genotype_stats
      [0, 0, 0, 0, 0, 0, 0, 0, 0, 0, 1, 1, 2, 2, 2, 2, 2, 2, 2, 2, 2, 2]).hwPval
      < 1 / 10000 ∧
    2 ≤ (calculate_genotype_stats
      [0, 0, 0, 0, 0, 0, 0, 0, 0, 0, 1, 1, 2, 2, 2, 2, 2, 2, 2, 2, 2, 2]).minGS := by
  refine ⟨fun row => ⟨fun h => ?_, fun h => ?_⟩, ?_, ?_, ?_, ?_, ?_, ?_⟩
  · simp only [qcKeepRow, Bool.and_eq_true, decide_eq_true_eq] at h
    exact ⟨h.1.1.1.2, h.1.1.2, h.1.2, h.2⟩
  · rcases h with ⟨h6, hg, hh, hm⟩
    have hall : row.all (fun c => c == -1) = false := by
      cases hca : row.all (fun c => c == -1)
      · rfl
      · have := stats_n_of_all_na row hca
        omega
    simp [qcKeepRow, hall, h6, hg, hh, hm]
    exact ⟨by simpa using hh, by simpa using hm⟩
  · norm_num [qcKeepRow, calculate_genotype_stats, calc_hwe_pvalue, hweProbs,
      hweProbsRev, npRint]
  · norm_num [calculate_genotype_stats, calc_hwe_pvalue, hweProbs,
      hweProbsRev, npRint]
  · norm_num [qcKeepRow, calculate_genotype_stats, calc_hwe_pvalue, hweProbs,
      hweProbsRev, npRint]
  · norm_num [qcKeepRow, calculate_genotype_stats, calc_hwe_pvalue, hweProbs,
      hweProbsRev, npRint]
  · norm_num [calculate_genotype_stats, calc_hwe_pvalue, hweProbs,
      hweProbsRev, npRint]
  · norm_num [calculate_genotype_stats, npRint]

/-- Claim C6 witness: the retention equivalence applied to the concrete
retained row with minimum group size exactly 2. -/
theorem qcKeepRow_iff_witness :
    6 ≤ (calculate_genotype_stats [0, 0, 1, 1, 1, 1, 1, 2, 2, 2, 2, 2]).n ∧
    2 ≤ (calculate_genotype_stats [0, 0, 1, 1, 1, 1, 1, 2, 2, 2, 2, 2]).minGS := by
  have h := (qcKeepRow_iff.1 [0, 0, 1, 1, 1, 1, 1, 2, 2, 2, 2, 2]).mp
    qcKeepRow_iff.2.1
  exact ⟨h.1, h.2.1⟩

/-! ## Claim C3: the discovery-FDR filter -/

theorem applyMask_map {α β : Type} (g : α → β) (l : List α) (m : List Bool) :
    applyMask (l.map g) m = (applyMask l m).map g := by
  induction l generalizing m with
  | nil => cases m <;> rfl
  | cons x xs ih =>
    cases m with
    | nil => rfl
    | cons b bs =>
      cases b <;> simp [applyMask, ih]

/-- Claim C3 counterexample: the claim states that, as the first QC step,
every eQTL with discovery FDR at least 0.05 is dropped before the
call-rate computation.  The QC sequence of Main.start never reads the FDR
column: the eQTL below with FDR 1/2 (well above 0.05) survives the whole
QC (its genotype row passes call rate, N, min GS, HWE and MAF), so it is
not dropped at all, let alone first. -/
theorem eqtl_fdr_not_filtered_in_main :
    (mainQC (95 / 100) (1 / 10000) (1 / 100) 2 (fun _ => 0)
      [⟨"rs1", "g1", 1 / 2⟩] [[0, 0, 1, 1, 1, 1, 1, 2, 2, 2, 2, 2]]).1 =
      [⟨"rs1", "g1", 1 / 2⟩] ∧
    (1 / 20 : ℚ) ≤ 1 / 2 := by
  constructor
  · norm_num [mainQC, callRateMaskRow, applyMask, qcKeepRow,
      calculate_genotype_stats, calc_hwe_pvalue, hweProbs, hweProbsRev, npRint,
      List.range_succ]
  · norm_num

/-- Claim C3 as amended: the main PICALO pipeline applies no discovery-FDR
filter at all - its QC decision is independent of the FDR column.  The
filter exists only in the separate tool fast_interaction_mapper.py, where
it does precede the call-rate computation and keeps rows with FDR < alpha;
but that tool reads its threshold from the CLI key eqtl_alpha, which the
shared argument parser never defines, so get_argument returns None there. -/
theorem main_qc_fdr_independent :
    (∀ (cr hw maf : ℚ) (mgs : ℕ) (dOf : ℕ → ℕ) (eqtls : List EQTLRow)
       (geno : List (List ℚ)) (f : ℚ → ℚ),
      (mainQC cr hw maf mgs dOf
        (eqtls.map (fun e => ⟨e.snp, e.probe, f e.fdr⟩)) geno).1 =
        ((mainQC cr hw maf mgs dOf eqtls geno).1).map
          (fun e => ⟨e.snp, e.probe, f e.fdr⟩)) ∧
    cliHasArgument "eqtl_alpha" = false ∧
    fim_eqtl_fdr_filter none [⟨"rs1", "g1", 1 / 2⟩] = none ∧
    (∀ (a : ℚ) (eqtls : List EQTLRow) (e : EQTLRow),
      e ∈ (fim_eqtl_fdr_filter (some a) eqtls).getD [] ↔ e ∈ eqtls ∧ e.fdr < a) := by
  refine ⟨fun cr hw maf mgs dOf eqtls geno f => ?_, rfl, rfl,
    fun a eqtls e => ?_⟩
  · simp only [mainQC]
    exact applyMask_map _ eqtls _
  · simp [fim_eqtl_fdr_filter, List.mem_filter]

/-- Claim C3 witness: by the amended theorem, the fast_interaction_mapper
filter at alpha = 1/20 drops the eQTL with FDR 1/2. -/
theorem main_qc_fdr_independent_witness :
    (⟨"rs1", "g1", 1 / 2⟩ : EQTLRow) ∉
      (fim_eqtl_fdr_filter (some (1 / 20)) [⟨"rs1", "g1", 1 / 2⟩]).getD [] := by
  intro h
  have := (main_qc_fdr_independent.2.2.2 (1 / 20) [⟨"rs1", "g1", 1 / 2⟩]
    ⟨"rs1", "g1", 1 / 2⟩).mp h
  have h2 := this.2
  norm_num at h2

/-! ## Claim C7: iteration-0 covariate selection -/

/-- Lexicographic comparison on (number of hits, min hits per sample). -/
def covLexLE (x y : ℕ × ℕ) : Prop :=
  x.1 < y.1 ∨ (x.1 = y.1 ∧ x.2 ≤ y.2)

theorem covLexLE_refl (x : ℕ × ℕ) : covLexLE x x := Or.inr ⟨rfl, le_refl _⟩

theorem covLexLE_trans {x y z : ℕ × ℕ} (h1 : covLexLE x y) (h2 : covLexLE y z) :
    covLexLE x z := by
  unfold covLexLE at *
  omega

theorem selectStep_mono (idx : ℕ) (r : CovResult) (st : Option ℕ × ℕ × ℕ) :
    covLexLE st.2 (selectStep idx r st).2 := by
  unfold selectStep
  split
  · rename_i hcond
    unfold covLexLE
    simp only
    omega
  · exact covLexLE_refl _

theorem selectCovariateAux_mono (rs : List CovResult) :
    ∀ (idx : ℕ) (st : Option ℕ × ℕ × ℕ),
      covLexLE st.2 (selectCovariateAux idx st rs).2 := by
  induction rs with
  | nil => intro idx st; exact covLexLE_refl _
  | cons r rest ih =>
    intro idx st
    exact covLexLE_trans (selectStep_mono idx r st) (ih (idx + 1) _)

theorem selectCovariateAux_dominates (rs : List CovResult) :
    ∀ (idx : ℕ) (st : Option ℕ × ℕ × ℕ) (j : ℕ) (r : CovResult),
      rs[j]? = some r → 2 ≤ r.minPerSample →
      covLexLE (r.hits, r.minPerSample) (selectCovariateAux idx st rs).2 := by
  induction rs with
  | nil => intro idx st j r hj; simp at hj
  | cons x rest ih =>
    intro idx st j r hj hr
    cases j with
    | zero =>
      simp only [List.getElem?_cons_zero, Option.some.injEq] at hj
      have hstep : selectCovariateAux idx st (x :: rest) =
          selectCovariateAux (idx + 1) (selectStep idx x st) rest := rfl
      rw [hstep, hj]
      refine covLexLE_trans ?_ (selectCovariateAux_mono rest (idx + 1) _)
      unfold selectStep
      split
      · exact covLexLE_refl _
      · rename_i hcond
        have hP : ¬(st.2.1 < r.hits ∨
            (r.hits = st.2.1 ∧ st.2.2 < r.minPerSample)) :=
          fun hp => hcond ⟨hr, hp⟩
        unfold covLexLE
        push_neg at hP
        omega
    | succ n =>
      simp only [List.getElem?_cons_succ] at hj
      exact ih (idx + 1) (selectStep idx x st) n r hj hr

/-- A reachable selection state: when no covariate has been selected yet,
the running n_hits is 0 and the running min-per-sample is below 2 (the
initial state has both 0). -/
def SelStateOK (st : Option ℕ × ℕ × ℕ) : Prop :=
  st.1 = none → st.2.1 = 0 ∧ st.2.2 ≤ 1

theorem selectStep_ok (idx : ℕ) (r : CovResult) (st : Option ℕ × ℕ × ℕ)
    (hok : SelStateOK st) : SelStateOK (selectStep idx r st) := by
  unfold selectStep SelStateOK
  split
  · intro h; simp at h
  · exact hok

theorem selectStep_preserves_some (idx : ℕ) (r : CovResult)
    (st : Option ℕ × ℕ × ℕ) (h : st.1.isSome = true) :
    (selectStep idx r st).1.isSome = true := by
  unfold selectStep
  split
  · rfl
  · exact h

theorem selectStep_some_of_eligible (idx : ℕ) (r : CovResult)
    (st : Option ℕ × ℕ × ℕ) (hok : SelStateOK st) (hr : 2 ≤ r.minPerSample) :
    (selectStep idx r st).1.isSome = true := by
  unfold selectStep
  split
  · rfl
  · rename_i hcond
    cases hst : st.1 with
    | some k => simp [hst]
    | none =>
      exfalso
      rcases hok hst with ⟨h0, h1⟩
      exact hcond ⟨hr, by omega⟩

theorem selectCovariateAux_preserves_some (rs : List CovResult) :
    ∀ (idx : ℕ) (st : Option ℕ × ℕ × ℕ), st.1.isSome = true →
      (selectCovariateAux idx st rs).1.isSome = true := by
  induction rs with
  | nil => intro idx st h; exact h
  | cons x rest ih =>
    intro idx st h
    exact ih (idx + 1) _ (selectStep_preserves_some idx x st h)

theorem selectCovariateAux_some (rs : List CovResult) :
    ∀ (idx : ℕ) (st : Option ℕ × ℕ × ℕ) (j : ℕ) (r : CovResult),
      SelStateOK st → rs[j]? = some r → 2 ≤ r.minPerSample →
      (selectCovariateAux idx st rs).1.isSome = true := by
  induction rs with
  | nil => intro idx st j r _ hj; simp at hj
  | cons x rest ih =>
    intro idx st j r hok hj hr
    cases j with
    | zero =>
      simp only [List.getElem?_cons_zero, Option.some.injEq] at hj
      have hstep : selectCovariateAux idx st (x :: rest) =
          selectCovariateAux (idx + 1) (selectStep idx x st) rest := rfl
      rw [hstep, hj]
      exact selectCovariateAux_preserves_some rest (idx + 1) _
        (selectStep_some_of_eligible idx r st hok hr)
    | succ n =>
      simp only [List.getElem?_cons_succ] at hj
      exact ih (idx + 1) (selectStep idx x st) n r (selectStep_ok idx x st hok)
        hj hr

theorem selectCovariateAux_min2 (rs : List CovResult) :
    ∀ (idx : ℕ) (st : Option ℕ × ℕ × ℕ),
      (∀ k h m : ℕ, st = (some k, h, m) → 2 ≤ m) →
      ∀ k h m : ℕ, selectCovariateAux idx st rs = (some k, h, m) → 2 ≤ m := by
  induction rs with
  | nil => intro idx st hst k h m he; exact hst k h m he
  | cons x rest ih =>
    intro idx st hst k h m he
    refine ih (idx + 1) (selectStep idx x st) ?_ k h m he
    intro k2 h2 m2 he2
    unfold selectStep at he2
    split at he2
    · rename_i hcond
      rcases he2 with he2
      injection he2 with _ he3
      injection he3 with hh hm
      subst hm
      exact hcond.1
    · exact hst k2 h2 m2 he2

/-- Claim C7: at iteration 0 with several candidate covariates, the
optimiser selects a candidate whose min-ieQTLs-per-sample is at least 2
(part 1), the selected pair (hits, min-per-sample) lexicographically
dominates every candidate that is eligible, i.e. has min-per-sample at
least 2 (part 2), some candidate is selected whenever an eligible
candidate exists (part 3), and on hit counts (12, 47, 9) with
min-per-sample (3, 5, 0) it picks the second candidate (part 4). -/
theorem selectCovariate_spec :
    (∀ (rs : List CovResult) (k h m : ℕ),
      selectCovariate rs = (some k, h, m) → 2 ≤ m) ∧
    (∀ (rs : List CovResult) (k h m j : ℕ) (r : CovResult),
      selectCovariate rs = (some k, h, m) → rs[j]? = some r →
      2 ≤ r.minPerSample → covLexLE (r.hits, r.minPerSample) (h, m)) ∧
    (∀ (rs : List CovResult) (j : ℕ) (r : CovResult),
      rs[j]? = some r → 2 ≤ r.minPerSample →
      (selectCovariate rs).1.isSome = true) ∧
    selectCovariate [⟨12, 3⟩, ⟨47, 5⟩, ⟨9, 0⟩] = (some 1, 47, 5) := by
  refine ⟨?_, ?_, ?_, ?_⟩
  · intro rs k h m he
    refine selectCovariateAux_min2 rs 0 (none, 0, 0) ?_ k h m he
    intro k2 h2 m2 he2
    simp at he2
  · intro rs k h m j r he hj hr
    have := selectCovariateAux_dominates rs 0 (none, 0, 0) j r hj hr
    rw [show selectCovariateAux 0 (none, 0, 0) rs = selectCovariate rs from rfl,
      he] at this
    exact this
  · intro rs j r hj hr
    exact selectCovariateAux_some rs 0 (none, 0, 0) j r
      (fun _ => ⟨rfl, by decide⟩) hj hr
  · rfl

/-- Claim C7 witness: the selection theorem applied to the concrete
candidate list (12, 3), (47, 5), (9, 0). -/
theorem selectCovariate_spec_witness :
    covLexLE (12, 3) (47, 5) ∧ (2 : ℕ) ≤ 5 := by
  refine ⟨selectCovariate_spec.2.1 [⟨12, 3⟩, ⟨47, 5⟩, ⟨9, 0⟩] 1 47 5 0 ⟨12, 3⟩
    selectCovariate_spec.2.2.2 rfl (by decide), ?_⟩
  exact selectCovariate_spec.1 [⟨12, 3⟩, ⟨47, 5⟩, ⟨9, 0⟩] 1 47 5
    selectCovariate_spec.2.2.2

/-! ## Claim C4: oscillation detection and roll-back -/

theorem oscCheck_active (pears : Vec → Vec → ℚ) (tol : ℚ)
    (minIter iteration : ℕ) (hist : List Vec) (prevHits nHits : ℕ) (r1 r2 : ℚ)
    (hr1 : pears (hist.getD (iteration - 1) []) (hist.getD (iteration + 1) []) = r1)
    (hr2 : pears (hist.getD (iteration - 2) []) (hist.getD iteration []) = r2)
    (h3 : 3 ≤ iteration) (hmin : minIter ≤ iteration)
    (hosc : 1 - r1 < tol ∨ 1 - r2 < tol) :
    oscCheck pears tol minIter iteration hist prevHits nHits =
      some ((!decide (1 - r1 < tol) && decide (1 - r2 < tol)) ||
        (decide (1 - r1 < tol) && decide (1 - r2 < tol) &&
          decide (nHits < prevHits))) := by
  unfold oscCheck
  rw [if_pos ⟨h3, hmin⟩]
  simp only []
  rw [hr1, hr2]
  split
  · rfl
  · rename_i hcontra
    exfalso
    rcases hosc with h | h
    · exact absurd (by rw [Bool.or_eq_true]; exact Or.inl (decide_eq_true h)) hcontra
    · exact absurd (by rw [Bool.or_eq_true]; exact Or.inr (decide_eq_true h)) hcontra

/-- Claim C4 counterexample: the claim states that when an oscillation is
declared and the roll-back condition does not hold, the optimiser keeps
the newly optimised vector.  In this concrete run (constant 5 hits with
min-per-sample 2, optimisation adds 1 to every coordinate, the pearson
oracle reports correlation 1 exactly between contexts [2] and [4],
tol = 1/1000, min_iter = 3) the oscillation triggers at iteration 3 with
only the first comparison below tol, so the roll-back branch is not taken;
the newly optimised vector is [4], yet the optimiser returns [3], the
previous context.  Both oscillation branches return the previous
context. -/
theorem oscillation_never_returns_optimized :
    ioProcess (fun _ => ⟨5, 2⟩) (fun v => v.map (· + 1))
      (fun x y => if x = ([2] : Vec) ∧ y = ([4] : Vec) then 1 else 0)
      (1 / 1000) 3 10 [[0]] = ⟨some [3], 5, false, 4⟩ ∧
    (([3] : Vec).map (· + 1)) = [4] ∧ (some [3] : Option Vec) ≠ some [4] := by
  refine ⟨?_, by norm_num, by simp⟩
  norm_num [ioProcess, processIter, oscCheck]

/-- Claim C4 as amended: once iteration >= 3 and iteration >= min_iter,
with r1 the correlation between the newly optimised vector (history row
iteration + 1) and the context two rows back (row iteration - 1) and r2
the correlation between the previous context (row iteration) and the row
three back (row iteration - 2), an oscillation is declared as soon as
1 - r1 < tol or 1 - r2 < tol, and the component converges (stop = false).
The roll-back branch is taken exactly when only the second comparison
passed tol, or both passed and the two-back iteration had strictly more
ieQTLs than the current one.  However the optimiser returns the previous
context in BOTH branches - the newly optimised vector is never returned -
and the branches differ only in the reported ieQTL count (the earlier
count on roll-back) and in whether the iteration is counted in the
persisted history. -/
theorem processIter_oscillation (map_ : Vec → MapOut) (opt : Vec → Vec)
    (pears : Vec → Vec → ℚ) (tol : ℚ) (minIter fuel iteration : ℕ)
    (context : Vec) (hist : List Vec) (prevHits nPerformed : ℕ) (r1 r2 : ℚ)
    (hr1 : pears ((hist ++ [opt context]).getD (iteration - 1) [])
      ((hist ++ [opt context]).getD (iteration + 1) []) = r1)
    (hr2 : pears ((hist ++ [opt context]).getD (iteration - 2) [])
      ((hist ++ [opt context]).getD iteration []) = r2)
    (h3 : 3 ≤ iteration) (hmin : minIter ≤ iteration)
    (hhits : 2 ≤ (map_ context).nHits)
    (hmps : 2 ≤ (map_ context).minPerSample)
    (hosc : 1 - r1 < tol ∨ 1 - r2 < tol) :
    ∃ rb : Bool,
      oscCheck pears tol minIter iteration (hist ++ [opt context]) prevHits
        (map_ context).nHits = some rb ∧
      (rb = true ↔
        ((¬(1 - r1 < tol) ∧ 1 - r2 < tol) ∨
         (1 - r1 < tol ∧ 1 - r2 < tol ∧ (map_ context).nHits < prevHits))) ∧
      processIter map_ opt pears tol minIter (fuel + 1) iteration context hist
          prevHits nPerformed =
        ⟨some context, if rb then prevHits else (map_ context).nHits, false,
          if rb then nPerformed else nPerformed + 1⟩ := by
  have hoc := oscCheck_active pears tol minIter iteration (hist ++ [opt context])
    prevHits (map_ context).nHits r1 r2 hr1 hr2 h3 hmin hosc
  refine ⟨_, hoc, ?_, ?_⟩
  · by_cases h1 : 1 - r1 < tol <;> by_cases h2 : 1 - r2 < tol <;>
      by_cases hn : (map_ context).nHits < prevHits <;> simp [h1, h2, hn]
  · unfold processIter
    rw [if_neg (by omega), if_neg (by omega)]
    simp only []
    rw [hoc]
    by_cases h1 : 1 - r1 < tol <;> by_cases h2 : 1 - r2 < tol <;>
      by_cases hn : (map_ context).nHits < prevHits <;> simp [h1, h2, hn]

/-- Claim C4 witness: the oscillation characterisation applied at
iteration 3 of the concrete run of the counterexample scenario. -/
theorem processIter_oscillation_witness :
    processIter (fun _ => ⟨5, 2⟩) (fun v => v.map (· + 1))
      (fun x y => if x = ([2] : Vec) ∧ y = ([4] : Vec) then (1 : ℚ) else 0)
      (1 / 1000) 3 7 3 [3] [[0], [1], [2], [3]] 5 3 = ⟨some [3], 5, false, 4⟩ := by
  obtain ⟨rb, hoc, hiff, heq⟩ := processIter_oscillation
    (fun _ => ⟨5, 2⟩) (fun v => v.map (· + 1))
    (fun x y => if x = ([2] : Vec) ∧ y = ([4] : Vec) then (1 : ℚ) else 0)
    (1 / 1000) 3 6 3 [3] [[0], [1], [2], [3]] 5 3 1 0
    (by norm_num [List.getD]) (by norm_num [List.getD])
    (by norm_num) (by norm_num) (by norm_num) (by norm_num)
    (by norm_num)
  have hrb : rb = false := by
    cases hb : rb
    · rfl
    · exfalso
      have := hiff.mp hb
      norm_num at this
  rw [hrb] at heq
  simpa using heq

/-! ## Claim C1: force_continue after an iteration-0 abort -/

/-- Claim C1 counterexample: the claim states that with -force_continue
the driver still identifies the next component after the first aborts at
iteration 0, producing PIC2/component.npy.  Here the first process call
aborts at iteration 0 (0 significant ieQTLs), the second would succeed,
and force_continue is set - yet the driver writes no component.npy at all
(written = []), performs 0 components, and only records the aborted count
in the summary: the break on a None component is unconditional. -/
theorem force_continue_does_not_survive_abort :
    driverRun true (fun k => if k = 0
        then ioProcess (fun _ => ⟨0, 0⟩) id (fun _ _ => 0) (1 / 1000) 3 10 [[1]]
        else ⟨some [1], 5, false, 1⟩) 2 = ⟨[], [], [(0, 0)], false, 0⟩ ∧
    picsOutput true (driverRun true (fun k => if k = 0
        then ioProcess (fun _ => ⟨0, 0⟩) id (fun _ _ => 0) (1 / 1000) 3 10 [[1]]
        else ⟨some [1], 5, false, 1⟩) 2) = none := by
  constructor
  · norm_num [driverRun, driverLoop, driverInit, ioProcess, processIter]
  · norm_num [driverRun, driverLoop, driverInit, ioProcess, processIter,
      picsOutput]

/-- Claim C1 as amended: when a component aborts at iteration 0 (at most
one significant ieQTL, or some sample with fewer than 2 ieQTLs), process
returns a None component with its hit count and stop = False, and the
driver then records that count in the summary and breaks out of the
component loop unconditionally - -force_continue does not apply (it only
guards the stop flag of a component that did return a vector), so no
further component and no PIC2/component.npy is produced and the run ends
on the no-PICs path. -/
theorem driver_breaks_on_abort :
    (∀ (map_ : Vec → MapOut) (opt : Vec → Vec) (pears : Vec → Vec → ℚ)
       (tol : ℚ) (minIter maxIter : ℕ) (c : Vec),
      1 ≤ maxIter → ((map_ c).nHits ≤ 1 ∨ (map_ c).minPerSample ≤ 1) →
      ioProcess map_ opt pears tol minIter maxIter [c] =
        ⟨none, (map_ c).nHits, false, 0⟩) ∧
    (∀ (fc : Bool) (proc : ℕ → ProcResult) (n m : ℕ),
      proc 0 = ⟨none, m, false, 0⟩ → 1 ≤ n →
      driverRun fc proc n = ⟨[], [], [(0, m)], false, 0⟩ ∧
      picsOutput fc (driverRun fc proc n) = none) := by
  constructor
  · intro map_ opt pears tol minIter maxIter c hmax habort
    cases maxIter with
    | zero => omega
    | succ mi =>
      unfold ioProcess
      rw [if_neg (by omega)]
      by_cases hn1 : (map_ c).nHits ≤ 1
      · simp [processIter, hn1]
      · have hm1 : (map_ c).minPerSample ≤ 1 := by
          rcases habort with h | h
          · exact absurd h hn1
          · exact h
        simp [processIter, hn1, hm1]
  · intro fc proc n m h0 hn
    cases n with
    | zero => omega
    | succ n2 =>
      have hrun : driverRun fc proc (n2 + 1) = ⟨[], [], [(0, m)], false, 0⟩ := by
        unfold driverRun driverLoop driverInit
        simp [h0]
      exact ⟨hrun, by rw [hrun]; rfl⟩

/-- Claim C1 witness: the abort-break theorem applied to a concrete run of
3 components with force_continue set whose first process call aborts. -/
theorem driver_breaks_on_abort_witness :
    driverRun true (fun _ => ⟨none, 7, false, 0⟩) 3 =
      ⟨[], [], [(0, 7)], false, 0⟩ ∧
    ioProcess (fun _ => ⟨1, 9⟩) id (fun _ _ => 0) (1 / 1000) 3 10 [[1]] =
      ⟨none, 1, false, 0⟩ := by
  constructor
  · exact (driver_breaks_on_abort.2 true (fun _ => ⟨none, 7, false, 0⟩) 3 7 rfl
      (by norm_num)).1
  · exact driver_breaks_on_abort.1 (fun _ => ⟨1, 9⟩) id (fun _ _ => 0)
      (1 / 1000) 3 10 [1] (by norm_num) (Or.inl (by norm_num))

/-! ## Claim C9: the non-converged final component and PICs.txt.gz -/

theorem driverLoop_invariant (fuel : ℕ) :
    ∀ (fc : Bool) (proc : ℕ → ProcResult) (k : ℕ) (st : DriverState),
      st.pics.length = st.nPerformed → st.written = List.range st.nPerformed →
      st.nPerformed = k →
      (driverLoop fc proc fuel k st).pics.length =
        (driverLoop fc proc fuel k st).nPerformed ∧
      (driverLoop fc proc fuel k st).written =
        List.range (driverLoop fc proc fuel k st).nPerformed := by
  induction fuel with
  | zero => intro fc proc k st h1 h2 _; exact ⟨h1, h2⟩
  | succ f ih =>
    intro fc proc k st h1 h2 h3
    unfold driverLoop
    simp only []
    split
    · exact ⟨h1, h2⟩
    · split
      · exact ⟨h1, h2⟩
      · refine ih fc proc (k + 1) _ ?_ ?_ ?_
        · simp [h1]
        · subst h3
          simp [h2, List.range_succ]
        · simp [h3]

/-- Claim C9: on a run without -force_continue whose final state carries
the stop flag (the last computed component did not converge), the emitted
PICs.txt.gz equals components.txt.gz with its final row removed, while the
non-converged component is still present in components.txt.gz (the pics
list has full length nPerformed) and its PIC{k}/component.npy was written
(every index below nPerformed is in the written list). -/
theorem pics_table_drops_nonconverged (proc : ℕ → ProcResult) (n : ℕ)
    (hstop : (driverRun false proc n).stop = true)
    (hperf : 1 ≤ (driverRun false proc n).nPerformed) :
    picsOutput false (driverRun false proc n) =
      some ((driverRun false proc n).pics.dropLast) ∧
    (driverRun false proc n).pics.length = (driverRun false proc n).nPerformed ∧
    (driverRun false proc n).written =
      List.range (driverRun false proc n).nPerformed ∧
    ((driverRun false proc n).nPerformed - 1) ∈ (driverRun false proc n).written := by
  have hinv := driverLoop_invariant n false proc 0 driverInit rfl rfl rfl
  have hlen : (driverRun false proc n).pics.length =
      (driverRun false proc n).nPerformed := hinv.1
  have hwr : (driverRun false proc n).written =
      List.range (driverRun false proc n).nPerformed := hinv.2
  refine ⟨?_, hlen, hwr, ?_⟩
  · unfold picsOutput
    rw [if_neg (by omega)]
    rw [hstop]
    rfl
  · rw [hwr, List.mem_range]
    omega

/-- Claim C9 witness: a two-component run without force_continue whose
single computed component does not converge: PICs.txt.gz is the empty
table while components.txt.gz still holds the component. -/
theorem pics_table_drops_nonconverged_witness :
    picsOutput false (driverRun false (fun _ => ⟨some [1], 5, true, 1⟩) 2) =
      some ((driverRun false (fun _ => ⟨some [1], 5, true, 1⟩) 2).pics.dropLast) ∧
    (driverRun false (fun _ => ⟨some [1], 5, true, 1⟩) 2).pics.length =
      (driverRun false (fun _ => ⟨some [1], 5, true, 1⟩) 2).nPerformed := by
  have h := pics_table_drops_nonconverged (fun _ => ⟨some [1], 5, true, 1⟩) 2
    rfl (by norm_num [driverRun, driverLoop, driverInit])
  exact ⟨h.1, h.2.1⟩

end Picalo
